import Mathlib

/-! Verification of the notification-queue core of `react-notification-provider`.

The definitions below are a shallow embedding of `src/index.tsx`
(`createImmutableQueue`, `createMockImmutableQueue`, `useQueue`,
`createNotificationContext`): JavaScript arrays of queued items become
`List`, `Array.prototype.findIndex` becomes an `Option Nat`-valued
`findIndex` (with `none` standing for `-1`), `copy.splice(i, 1, x)` on a
fresh copy becomes `List.set i x`, `copy.push(x)` becomes appending, and
`Array.prototype.filter` becomes `List.filter`.  For the claims about
array identity and in-place mutation, a small heap model (`Store`) keeps
every array in an addressable cell, so that "the receiver is unchanged"
and "the backing array keeps its identity" are expressible. -/

section Defs

variable {T C Q : Type} {α β : Type}

/-- Mirrors `QueuedItem<Data> = { id: string; data: Data }`. -/
structure QueuedItem (Data : Type) where
  id : String
  data : Data
  deriving Repr, DecidableEq

/-- Mirrors `Array.prototype.findIndex`: the index of the first element
satisfying `p`, with `none` standing for JavaScript's `-1`. -/
def findIndex (p : α → Bool) : List α → Option Nat
  | [] => none
  | a :: l => if p a then some 0 else (findIndex p l).map (fun i => i + 1)

/-- An immutable queue value: the `entries` field of the object returned by
`createImmutableQueue`. -/
structure ImmutableQueue (T : Type) where
  entries : List (QueuedItem T)
  deriving Repr, DecidableEq

/-- Mirrors `createImmutableQueue(entries)`: wraps the caller-supplied entries
sequence exactly, without copying or deduplicating. -/
def createImmutableQueue (entries : List (QueuedItem T)) : ImmutableQueue T :=
  ⟨entries⟩

/-- Mirrors `add(id, data)` of `createImmutableQueue`: find the first entry with
a matching id; if found, replace it at its position in a copy
(`copy.splice(matchIndex, 1, {id, data})`), otherwise append (`copy.push`). -/
def ImmutableQueue.add (q : ImmutableQueue T) (id : String) (data : T) : ImmutableQueue T :=
  match findIndex (fun n => n.id == id) q.entries with
  | some matchIndex => createImmutableQueue (q.entries.set matchIndex ⟨id, data⟩)
  | none => createImmutableQueue (q.entries ++ [⟨id, data⟩])

/-- Mirrors `remove(id)` of `createImmutableQueue`:
`createImmutableQueue(entries.filter(n => n.id !== id))`. -/
def ImmutableQueue.remove (q : ImmutableQueue T) (id : String) : ImmutableQueue T :=
  createImmutableQueue (q.entries.filter (fun n => !(n.id == id)))

/-- Mirrors `removeAll()` of `createImmutableQueue`: `createImmutableQueue()`,
a fresh queue over an empty entries array. -/
def ImmutableQueue.removeAll (_q : ImmutableQueue T) : ImmutableQueue T :=
  createImmutableQueue []

/-- A heap of JavaScript arrays of queued items: an array reference is an index
into `arrays`.  This models array identity and in-place mutation, which the
pure `List` view cannot express. -/
structure Store (T : Type) where
  arrays : List (List (QueuedItem T))
  deriving Repr

/-- Dereference an array: the contents currently stored at reference `r`. -/
def Store.read (st : Store T) (r : Nat) : List (QueuedItem T) :=
  (st.arrays[r]?).getD []

/-- Allocate a fresh array holding `xs`; returns the new heap and the fresh
reference (JavaScript `slice`, `filter` and array literals allocate). -/
def Store.alloc (st : Store T) (xs : List (QueuedItem T)) : Store T × Nat :=
  (⟨st.arrays ++ [xs]⟩, st.arrays.length)

/-- Overwrite the contents of the array at reference `r` in place
(JavaScript `splice`/`push` on an existing array). -/
def Store.write (st : Store T) (r : Nat) (xs : List (QueuedItem T)) : Store T :=
  ⟨st.arrays.set r xs⟩

/-- Heap-level `add` of the immutable queue whose entries array lives at `r`:
`entries.slice()` allocates a copy, the copy alone is then mutated
(`splice`/`push`), and the returned queue wraps the copy's reference. -/
def heapAdd (st : Store T) (r : Nat) (id : String) (data : T) : Store T × Nat :=
  let xs := st.read r
  let al := st.alloc xs
  (al.1.write al.2 ((createImmutableQueue xs).add id data).entries, al.2)

/-- Heap-level `remove` of the immutable queue at `r`: `entries.filter(...)`
allocates a fresh array, which the returned queue wraps. -/
def heapRemove (st : Store T) (r : Nat) (id : String) : Store T × Nat :=
  st.alloc ((createImmutableQueue (st.read r)).remove id).entries

/-- Heap-level `removeAll` of the immutable queue at `r`:
`createImmutableQueue()` allocates a fresh empty array. -/
def heapRemoveAll (st : Store T) (r : Nat) : Store T × Nat :=
  st.alloc ((createImmutableQueue (st.read r)).removeAll).entries

/-- Heap-level `add` of `createMockImmutableQueue` whose fixed backing array
lives at `r`: compute `createImmutableQueue(entries).add(id, data)`, then
`updateEntries` overwrites the backing array in place
(`entries.splice(0, entries.length); entries.push(...queue.entries)`) and
`this` — identified by its backing reference `r` — is returned. -/
def mockAdd (st : Store T) (r : Nat) (id : String) (data : T) : Store T × Nat :=
  let q := heapAdd st r id data
  (q.1.write r (q.1.read q.2), r)

/-- Heap-level `remove` of `createMockImmutableQueue`: compute
`createImmutableQueue(entries).remove(id)`, overwrite the backing array in
place, return `this`. -/
def mockRemove (st : Store T) (r : Nat) (id : String) : Store T × Nat :=
  let q := heapRemove st r id
  (q.1.write r (q.1.read q.2), r)

/-- Heap-level `removeAll` of `createMockImmutableQueue`: compute
`createImmutableQueue(entries).removeAll()`, overwrite the backing array in
place, return `this`. -/
def mockRemoveAll (st : Store T) (r : Nat) : Store T × Nat :=
  let q := heapRemoveAll st r
  (q.1.write r (q.1.read q.2), r)

/-- Lookup in the removal-callback registry, keyed by entry id. -/
def lookupCb (id : String) : List (String × C) → Option C
  | [] => none
  | (k, c) :: rest => if id == k then some c else lookupCb id rest

/-- Modelled from the spec: the Queue State Binding of spec §4.3 together with
its removal-callback registry.  The repository's implementation carrying the
optional `onRemove` parameter of `add` is not present under `src/` — only its
tests call `add(id, data, onRemove)` — so, following the spec, the binding
holds the current queue value plus a side registry keyed by id.  Callbacks are
opaque values of type `C`; invoking callbacks is modelled by returning the
list of invoked callbacks in invocation order. -/
structure QueueHookState (T C : Type) where
  queue : List (QueuedItem T)
  registry : List (String × C)
  deriving Repr, DecidableEq

/-- Modelled from the spec: `add(id, data, onRemove?)` of the binding computes
`currentQueue.add(id, data)` and, when a callback is supplied, stores it in
the registry keyed by id, overwriting any prior callback for that id without
invoking it. -/
def hookAdd (s : QueueHookState T C) (id : String) (data : T) (cb : Option C) :
    QueueHookState T C :=
  { queue := ((createImmutableQueue s.queue).add id data).entries,
    registry :=
      match cb with
      | some c => s.registry.filter (fun p => !(p.1 == id)) ++ [(id, c)]
      | none => s.registry }

/-- Modelled from the spec: `remove(id)` of the binding computes
`currentQueue.remove(id)`; if an entry with that id existed and has a
registered removal callback, that callback is invoked exactly once and its
registration deleted.  Returns the next state and the invoked callbacks. -/
def hookRemove (s : QueueHookState T C) (id : String) : QueueHookState T C × List C :=
  let next := ((createImmutableQueue s.queue).remove id).entries
  if s.queue.any (fun e => e.id == id) then
    match lookupCb id s.registry with
    | some c =>
        ({ queue := next, registry := s.registry.filter (fun p => !(p.1 == id)) }, [c])
    | none => ({ queue := next, registry := s.registry }, [])
  else ({ queue := next, registry := s.registry }, [])

/-- Modelled from the spec: `removeAll()` of the binding invokes, for every
entry currently present that has a registered callback, that callback exactly
once in ascending insertion order, clears all registrations, and sets the
current queue to the empty queue. -/
def hookRemoveAll (s : QueueHookState T C) : QueueHookState T C × List C :=
  ({ queue := [], registry := [] },
    s.queue.filterMap (fun e => lookupCb e.id s.registry))

/-- Mirrors `useNotificationQueue` of `createNotificationContext`: the ambient
context value is `null` outside any Provider subtree (modelled by `none`), in
which case the hook throws `Missing <NotificationProvider>`; inside a
Provider subtree it returns the Provider's queue binding. -/
def useNotificationQueue (ctx : Option Q) : Except String Q :=
  match ctx with
  | none => Except.error "Missing <NotificationProvider>"
  | some queue => Except.ok queue

end Defs

section Helpers

variable {T C Q : Type} {α β : Type}

/-- When no element satisfies the predicate, `findIndex` reports a miss. -/
theorem findIndex_eq_none_of {p : α → Bool} {l : List α}
    (h : ∀ a ∈ l, p a = false) : findIndex p l = none := by
  induction l with
  | nil => rfl
  | cons a t ih =>
    have ha := h a (List.mem_cons_self a t)
    have ht := ih (fun b hb => h b (List.mem_cons_of_mem a hb))
    simp [findIndex, ha, ht]

/-- A `findIndex` miss means no element satisfies the predicate. -/
theorem findIndex_none_imp {p : α → Bool} {l : List α}
    (h : findIndex p l = none) : ∀ a ∈ l, p a = false := by
  induction l with
  | nil => intro a ha; cases ha
  | cons a t ih =>
    intro b hb
    rw [findIndex] at h
    by_cases hpa : p a = true
    · simp [hpa] at h
    · have hpa2 : p a = false := Bool.eq_false_iff.mpr hpa
      rcases List.mem_cons.mp hb with hb1 | hb2
      · rw [hb1]; exact hpa2
      · apply ih ?_ b hb2
        simp only [hpa2, if_neg Bool.false_ne_true, Option.map_eq_none'] at h
        simpa using h

/-- A `findIndex` hit points at an element satisfying the predicate. -/
theorem findIndex_some_spec {p : α → Bool} {l : List α} {i : Nat}
    (h : findIndex p l = some i) : ∃ a, l[i]? = some a ∧ p a = true := by
  induction l generalizing i with
  | nil => simp [findIndex] at h
  | cons a t ih =>
    rw [findIndex] at h
    by_cases hpa : p a = true
    · rw [if_pos hpa] at h
      have hi0 : i = 0 := by simpa using h.symm
      subst hi0
      exact ⟨a, List.getElem?_cons_zero, hpa⟩
    · rw [if_neg hpa, Option.map_eq_some'] at h
      obtain ⟨j, hj, hji⟩ := h
      obtain ⟨b, hb, hpb⟩ := ih hj
      refine ⟨b, ?_, hpb⟩
      rw [← hji, List.getElem?_cons_succ]
      exact hb

/-- The first position whose element satisfies the predicate is the `findIndex`. -/
theorem findIndex_eq_some_first {p : α → Bool} {l : List α} {i : Nat} {a : α}
    (ha : l[i]? = some a) (hpa : p a = true)
    (hfirst : ∀ j b, j < i → l[j]? = some b → p b = false) :
    findIndex p l = some i := by
  induction l generalizing i with
  | nil => simp at ha
  | cons x t ih =>
    cases i with
    | zero =>
      rw [List.getElem?_cons_zero] at ha
      have hx : x = a := by simpa using ha
      rw [findIndex, if_pos (hx ▸ hpa)]
    | succ n =>
      have hx : p x = false := hfirst 0 x (Nat.succ_pos n) List.getElem?_cons_zero
      rw [findIndex, if_neg (by simp [hx])]
      rw [List.getElem?_cons_succ] at ha
      have ht := ih ha (fun j b hj hb =>
        hfirst (j + 1) b (Nat.succ_lt_succ hj) (by rw [List.getElem?_cons_succ]; exact hb))
      rw [ht]
      rfl

/-- In a duplicate-free list, an element sits at a unique position. -/
theorem nodup_getElem?_inj {l : List α} (hl : l.Nodup) {i j : Nat} {x : α}
    (hi : l[i]? = some x) (hj : l[j]? = some x) : i = j := by
  obtain ⟨hi1, hi2⟩ := List.getElem?_eq_some_iff.mp hi
  obtain ⟨hj1, hj2⟩ := List.getElem?_eq_some_iff.mp hj
  exact (List.Nodup.getElem_inj_iff hl).mp (hi2.trans hj2.symm)

/-- Writing back the element already present leaves the list unchanged. -/
theorem set_getElem?_eq_self {l : List α} {i : Nat} {a : α} (h : l[i]? = some a) :
    l.set i a = l := by
  induction l generalizing i with
  | nil => simp at h
  | cons x t ih =>
    cases i with
    | zero =>
      rw [List.getElem?_cons_zero] at h
      have hx : x = a := by simpa using h
      rw [← hx]
      rfl
    | succ n =>
      rw [List.getElem?_cons_succ] at h
      show x :: t.set n a = x :: t
      rw [ih h]

/-- After filtering out a key, the registry no longer resolves it. -/
theorem lookupCb_filter_self {l : List (String × C)} {k : String} :
    lookupCb k (l.filter (fun p => !(p.1 == k))) = none := by
  induction l with
  | nil => rfl
  | cons p t ih =>
    obtain ⟨a, c⟩ := p
    by_cases h : a = k
    · rw [List.filter_cons, if_neg (by simp [h])]
      exact ih
    · rw [List.filter_cons, if_pos (by simp [h])]
      rw [lookupCb, if_neg (by simpa using Ne.symm h)]
      exact ih

/-- The elements produced by `filterMap`, position by position, are the images
of the elements on which the function succeeds, in order. -/
theorem filterMap_getElem? (f : α → Option β) (l : List α) (i : Nat) :
    (l.filterMap f)[i]? = ((l.filter (fun a => (f a).isSome))[i]?).bind f := by
  induction l generalizing i with
  | nil => simp
  | cons a t ih =>
    cases hfa : f a with
    | none =>
      rw [List.filterMap_cons, hfa, List.filter_cons, if_neg (by simp [hfa])]
      exact ih i
    | some b =>
      rw [List.filterMap_cons, hfa, List.filter_cons, if_pos (by simp [hfa])]
      cases i with
      | zero => simp [hfa]
      | succ n =>
        rw [List.getElem?_cons_succ, List.getElem?_cons_succ]
        exact ih n

/-- Allocation leaves every existing heap cell readable unchanged. -/
theorem store_read_alloc {st : Store T} {xs : List (QueuedItem T)} {r : Nat}
    (hr : r < st.arrays.length) : (st.alloc xs).1.read r = st.read r := by
  show ((st.arrays ++ [xs])[r]?).getD [] = (st.arrays[r]?).getD []
  rw [List.getElem?_append, if_pos hr]

/-- Reading a freshly allocated cell yields the allocated contents. -/
theorem store_read_alloc_self {st : Store T} {xs : List (QueuedItem T)} :
    (st.alloc xs).1.read (st.alloc xs).2 = xs := by
  show ((st.arrays ++ [xs])[st.arrays.length]?).getD [] = xs
  rw [List.getElem?_append]
  simp

/-- Reading a cell just written yields the written contents. -/
theorem store_read_write_self {st : Store T} {xs : List (QueuedItem T)} {r : Nat}
    (hr : r < st.arrays.length) : (st.write r xs).read r = xs := by
  show ((st.arrays.set r xs)[r]?).getD [] = xs
  rw [List.getElem?_set_self hr]
  rfl

/-- Writing one cell leaves every other cell unchanged. -/
theorem store_read_write_ne {st : Store T} {xs : List (QueuedItem T)} {r r2 : Nat}
    (h : r2 ≠ r) : (st.write r2 xs).read r = st.read r := by
  show ((st.arrays.set r2 xs)[r]?).getD [] = (st.arrays[r]?).getD []
  rw [List.getElem?_set_ne h]

/-- Allocation grows the heap by one cell. -/
theorem store_alloc_arrays_length {st : Store T} {xs : List (QueuedItem T)} :
    (st.alloc xs).1.arrays.length = st.arrays.length + 1 := by
  show (st.arrays ++ [xs]).length = st.arrays.length + 1
  simp

/-- In-place writes do not change the heap size. -/
theorem store_write_arrays_length {st : Store T} {r : Nat} {xs : List (QueuedItem T)} :
    (st.write r xs).arrays.length = st.arrays.length := by
  show (st.arrays.set r xs).length = st.arrays.length
  simp

end Helpers

section ClaimTheorems

variable {T C Q : Type} {α β : Type}

/-- Claim C1: on a queue whose entry ids are unique, `add(k, d)` is an upsert:
if an entry with id `k` sits at position `p`, the result has the same length,
carries `{id: k, data: d}` at position `p`, and leaves every other position
unchanged; if no entry has id `k`, the result is the old entries with
`{id: k, data: d}` appended. -/
theorem immutableQueue_add_upsert (entries : List (QueuedItem T)) (k : String) (d : T) :
    (∀ (p q : Nat) (e : QueuedItem T),
        (entries.map QueuedItem.id).Nodup → entries[p]? = some e → e.id = k → q ≠ p →
          ((createImmutableQueue entries).add k d).entries.length = entries.length ∧
          ((createImmutableQueue entries).add k d).entries[p]? = some ⟨k, d⟩ ∧
          ((createImmutableQueue entries).add k d).entries[q]? = entries[q]?) ∧
    ((∀ e ∈ entries, ¬ e.id = k) →
      ((createImmutableQueue entries).add k d).entries = entries ++ [⟨k, d⟩]) := by
  constructor
  · intro p q e hnd hp hid hq
    have hfi : findIndex (fun n => n.id == k) entries = some p := by
      apply findIndex_eq_some_first hp (by simp [hid])
      intro j b hj hb
      by_cases hbk : b.id = k
      · exfalso
        have h1 : (entries.map QueuedItem.id)[j]? = some k := by
          rw [List.getElem?_map, hb]
          simp [hbk]
        have h2 : (entries.map QueuedItem.id)[p]? = some k := by
          rw [List.getElem?_map, hp]
          simp [hid]
        exact absurd (nodup_getElem?_inj hnd h1 h2) (Nat.ne_of_lt hj)
      · simp [hbk]
    have hadd : ((createImmutableQueue entries).add k d).entries = entries.set p ⟨k, d⟩ := by
      simp only [ImmutableQueue.add, createImmutableQueue, hfi]
    have hlen : p < entries.length := (List.getElem?_eq_some_iff.mp hp).1
    refine ⟨?_, ?_, ?_⟩
    · rw [hadd, List.length_set]
    · rw [hadd]
      exact List.getElem?_set_self hlen
    · rw [hadd]
      exact List.getElem?_set_ne (Ne.symm hq)
  · intro hmiss
    have hfi : findIndex (fun n => n.id == k) entries = none := by
      apply findIndex_eq_none_of
      intro a ha
      simpa using beq_eq_false_iff_ne.mpr (hmiss a ha)
    simp only [ImmutableQueue.add, createImmutableQueue, hfi]

/-- Concrete run of the upsert: replacing id `a` at position 0 of a
two-element queue, and appending to a queue without the id. -/
theorem immutableQueue_add_upsert_witness :
    ((([⟨"a", 1⟩, ⟨"b", 2⟩] : List (QueuedItem Nat)).map QueuedItem.id).Nodup ∧
      ([⟨"a", 1⟩, ⟨"b", 2⟩] : List (QueuedItem Nat))[0]? = some ⟨"a", 1⟩ ∧
      (∀ e ∈ ([⟨"b", 2⟩] : List (QueuedItem Nat)), ¬ e.id = "a")) ∧
    (((createImmutableQueue [⟨"a", 1⟩, ⟨"b", 2⟩]).add "a" 7).entries.length = 2 ∧
      ((createImmutableQueue [⟨"a", 1⟩, ⟨"b", 2⟩]).add "a" 7).entries[0]? = some ⟨"a", 7⟩ ∧
      ((createImmutableQueue [⟨"a", 1⟩, ⟨"b", 2⟩]).add "a" 7).entries[1]?
        = ([⟨"a", 1⟩, ⟨"b", 2⟩] : List (QueuedItem Nat))[1]?) ∧
    ((createImmutableQueue [(⟨"b", 2⟩ : QueuedItem Nat)]).add "a" 7).entries
      = [⟨"b", 2⟩] ++ [⟨"a", 7⟩] :=
  ⟨⟨by decide, by decide, by decide⟩,
    (immutableQueue_add_upsert [⟨"a", 1⟩, ⟨"b", 2⟩] "a" 7).1 0 1 ⟨"a", 1⟩
      (by decide) (by decide) rfl (by decide),
    (immutableQueue_add_upsert [⟨"b", 2⟩] "a" 7).2 (by decide)⟩

/-- Claim C4: `remove(k)` keeps exactly the entries whose id differs from `k`,
in their original order, and is a no-op (raising nothing) when the id is
absent. -/
theorem immutableQueue_remove_is_filter (entries : List (QueuedItem T)) (k : String) :
    ((createImmutableQueue entries).remove k).entries
      = entries.filter (fun e => decide (¬ e.id = k)) ∧
    ((∀ e ∈ entries, ¬ e.id = k) →
      ((createImmutableQueue entries).remove k).entries = entries) := by
  constructor
  · show entries.filter (fun n => !(n.id == k)) = entries.filter (fun e => decide (¬ e.id = k))
    apply List.filter_congr
    intro a _
    by_cases h : a.id = k <;> simp [h]
  · intro hmiss
    show entries.filter (fun n => !(n.id == k)) = entries
    rw [List.filter_eq_self]
    intro a ha
    simp [hmiss a ha]

/-- Concrete run of `remove`: removing an absent id leaves the entries
untouched. -/
theorem immutableQueue_remove_is_filter_witness :
    (∀ e ∈ ([⟨"a", 1⟩, ⟨"b", 2⟩] : List (QueuedItem Nat)), ¬ e.id = "z") ∧
    ((createImmutableQueue [(⟨"a", 1⟩ : QueuedItem Nat), ⟨"b", 2⟩]).remove "z").entries
      = [⟨"a", 1⟩, ⟨"b", 2⟩] :=
  ⟨by decide, (immutableQueue_remove_is_filter [⟨"a", 1⟩, ⟨"b", 2⟩] "z").2 (by decide)⟩

/-- Claim C5: `removeAll()` yields a queue with an empty entries sequence,
whatever the receiver contained. -/
theorem immutableQueue_removeAll_empty (q : ImmutableQueue T) :
    (q.removeAll).entries = [] := rfl

end ClaimTheorems

section ClaimTheorems2

variable {T C Q : Type} {α β : Type}

/-- Claim C6: the immutable-queue operations never mutate the receiver — after
`add`, `remove` or `removeAll` on the queue whose entries array lives at a
valid heap reference `r`, the contents at `r` are exactly what they were
before, and the returned queue wraps a distinct (freshly allocated)
reference. -/
theorem immutableQueue_no_mutation (st : Store T) (r : Nat) (k : String) (d : T)
    (hr : r < st.arrays.length) :
    ((heapAdd st r k d).1.read r = st.read r ∧ (heapAdd st r k d).2 ≠ r) ∧
    ((heapRemove st r k).1.read r = st.read r ∧ (heapRemove st r k).2 ≠ r) ∧
    ((heapRemoveAll st r).1.read r = st.read r ∧ (heapRemoveAll st r).2 ≠ r) := by
  have hne : st.arrays.length ≠ r := Nat.ne_of_gt hr
  refine ⟨⟨?_, hne⟩, ⟨?_, hne⟩, ⟨?_, hne⟩⟩
  · show ((st.alloc (st.read r)).1.write (st.alloc (st.read r)).2
        ((createImmutableQueue (st.read r)).add k d).entries).read r = st.read r
    exact (store_read_write_ne
      (show (st.alloc (st.read r)).2 ≠ r from hne)).trans (store_read_alloc hr)
  · exact store_read_alloc hr
  · exact store_read_alloc hr

/-- Concrete run of the immutability facts on a one-array heap. -/
theorem immutableQueue_no_mutation_witness :
    0 < (⟨[[⟨"x", 1⟩]]⟩ : Store Nat).arrays.length ∧
    (((heapAdd (⟨[[⟨"x", 1⟩]]⟩ : Store Nat) 0 "x" 2).1.read 0
          = (⟨[[⟨"x", 1⟩]]⟩ : Store Nat).read 0 ∧
        (heapAdd (⟨[[⟨"x", 1⟩]]⟩ : Store Nat) 0 "x" 2).2 ≠ 0) ∧
      ((heapRemove (⟨[[⟨"x", 1⟩]]⟩ : Store Nat) 0 "x").1.read 0
          = (⟨[[⟨"x", 1⟩]]⟩ : Store Nat).read 0 ∧
        (heapRemove (⟨[[⟨"x", 1⟩]]⟩ : Store Nat) 0 "x").2 ≠ 0) ∧
      ((heapRemoveAll (⟨[[⟨"x", 1⟩]]⟩ : Store Nat) 0).1.read 0
          = (⟨[[⟨"x", 1⟩]]⟩ : Store Nat).read 0 ∧
        (heapRemoveAll (⟨[[⟨"x", 1⟩]]⟩ : Store Nat) 0).2 ≠ 0)) :=
  ⟨by decide, immutableQueue_no_mutation ⟨[[⟨"x", 1⟩]]⟩ 0 "x" 2 (by decide)⟩

/-- Claim C7: every mutable-adapter operation returns the adapter itself (the
same backing reference `r`), and afterwards the backing array at `r` holds
exactly the entries the corresponding immutable-queue operation would produce
from the previous contents. -/
theorem mockQueue_identity_refinement (st : Store T) (r : Nat) (k : String) (d : T)
    (hr : r < st.arrays.length) :
    ((mockAdd st r k d).2 = r ∧
      (mockAdd st r k d).1.read r = ((createImmutableQueue (st.read r)).add k d).entries) ∧
    ((mockRemove st r k).2 = r ∧
      (mockRemove st r k).1.read r
        = ((createImmutableQueue (st.read r)).remove k).entries) ∧
    ((mockRemoveAll st r).2 = r ∧
      (mockRemoveAll st r).1.read r
        = ((createImmutableQueue (st.read r)).removeAll).entries) := by
  have hr1 : r < st.arrays.length + 1 := Nat.lt_succ_of_lt hr
  have hlen : st.arrays.length < st.arrays.length + 1 := Nat.lt_succ_self _
  refine ⟨⟨rfl, ?_⟩, ⟨rfl, ?_⟩, ⟨rfl, ?_⟩⟩
  · have hv : (heapAdd st r k d).1.read (heapAdd st r k d).2
        = ((createImmutableQueue (st.read r)).add k d).entries := by
      show ((st.alloc (st.read r)).1.write (st.alloc (st.read r)).2
          ((createImmutableQueue (st.read r)).add k d).entries).read
          (st.alloc (st.read r)).2
        = ((createImmutableQueue (st.read r)).add k d).entries
      apply store_read_write_self
      show st.arrays.length < (st.alloc (st.read r)).1.arrays.length
      rw [store_alloc_arrays_length]
      exact hlen
    show ((heapAdd st r k d).1.write r
        ((heapAdd st r k d).1.read (heapAdd st r k d).2)).read r
      = ((createImmutableQueue (st.read r)).add k d).entries
    rw [hv]
    apply store_read_write_self
    show r < ((st.alloc (st.read r)).1.write (st.alloc (st.read r)).2
        ((createImmutableQueue (st.read r)).add k d).entries).arrays.length
    rw [store_write_arrays_length, store_alloc_arrays_length]
    exact hr1
  · have hv : (heapRemove st r k).1.read (heapRemove st r k).2
        = ((createImmutableQueue (st.read r)).remove k).entries := store_read_alloc_self
    show ((heapRemove st r k).1.write r
        ((heapRemove st r k).1.read (heapRemove st r k).2)).read r
      = ((createImmutableQueue (st.read r)).remove k).entries
    rw [hv]
    apply store_read_write_self
    show r < (st.alloc ((createImmutableQueue (st.read r)).remove k).entries).1.arrays.length
    rw [store_alloc_arrays_length]
    exact hr1
  · have hv : (heapRemoveAll st r).1.read (heapRemoveAll st r).2
        = ((createImmutableQueue (st.read r)).removeAll).entries := store_read_alloc_self
    show ((heapRemoveAll st r).1.write r
        ((heapRemoveAll st r).1.read (heapRemoveAll st r).2)).read r
      = ((createImmutableQueue (st.read r)).removeAll).entries
    rw [hv]
    apply store_read_write_self
    show r < (st.alloc ((createImmutableQueue (st.read r)).removeAll).entries).1.arrays.length
    rw [store_alloc_arrays_length]
    exact hr1

/-- Concrete run of the mutable-adapter facts on a one-array heap. -/
theorem mockQueue_identity_refinement_witness :
    0 < (⟨[[⟨"x", 1⟩]]⟩ : Store Nat).arrays.length ∧
    (((mockAdd (⟨[[⟨"x", 1⟩]]⟩ : Store Nat) 0 "y" 2).2 = 0 ∧
        (mockAdd (⟨[[⟨"x", 1⟩]]⟩ : Store Nat) 0 "y" 2).1.read 0
          = ((createImmutableQueue ((⟨[[⟨"x", 1⟩]]⟩ : Store Nat).read 0)).add "y" 2).entries) ∧
      ((mockRemove (⟨[[⟨"x", 1⟩]]⟩ : Store Nat) 0 "y").2 = 0 ∧
        (mockRemove (⟨[[⟨"x", 1⟩]]⟩ : Store Nat) 0 "y").1.read 0
          = ((createImmutableQueue ((⟨[[⟨"x", 1⟩]]⟩ : Store Nat).read 0)).remove "y").entries) ∧
      ((mockRemoveAll (⟨[[⟨"x", 1⟩]]⟩ : Store Nat) 0).2 = 0 ∧
        (mockRemoveAll (⟨[[⟨"x", 1⟩]]⟩ : Store Nat) 0).1.read 0
          = ((createImmutableQueue ((⟨[[⟨"x", 1⟩]]⟩ : Store Nat).read 0)).removeAll).entries)) :=
  ⟨by decide, mockQueue_identity_refinement ⟨[[⟨"x", 1⟩]]⟩ 0 "y" 2 (by decide)⟩

end ClaimTheorems2

section ClaimTheorems3

variable {T C Q : Type} {α β : Type}

/-- Claim C8: id uniqueness is an invariant — when the entries carry pairwise
distinct ids, the entries produced by `add` (which replaces instead of
duplicating), `remove` and `removeAll` again carry pairwise distinct ids. -/
theorem queue_ids_nodup_preserved (entries : List (QueuedItem T)) (k : String) (d : T)
    (h : (entries.map QueuedItem.id).Nodup) :
    (((createImmutableQueue entries).add k d).entries.map QueuedItem.id).Nodup ∧
    (((createImmutableQueue entries).remove k).entries.map QueuedItem.id).Nodup ∧
    (((createImmutableQueue entries).removeAll).entries.map QueuedItem.id).Nodup := by
  refine ⟨?_, ?_, ?_⟩
  · cases hfi : findIndex (fun n => n.id == k) entries with
    | some i =>
      obtain ⟨e, he, hpe⟩ := findIndex_some_spec hfi
      have hek : e.id = k := by simpa using hpe
      have hset : ((createImmutableQueue entries).add k d).entries = entries.set i ⟨k, d⟩ := by
        simp only [ImmutableQueue.add, createImmutableQueue, hfi]
      rw [hset, List.map_set]
      have hik : (entries.map QueuedItem.id)[i]? = some k := by
        rw [List.getElem?_map, he]
        simp [hek]
      rw [show (QueuedItem.mk k d).id = k from rfl, set_getElem?_eq_self hik]
      exact h
    | none =>
      have happ : ((createImmutableQueue entries).add k d).entries = entries ++ [⟨k, d⟩] := by
        simp only [ImmutableQueue.add, createImmutableQueue, hfi]
      rw [happ, List.map_append, List.nodup_append]
      refine ⟨h, List.nodup_singleton _, ?_⟩
      intro a ha hak
      have hak2 : a = k := by simpa using hak
      have ha2 : ∃ e, e ∈ entries ∧ e.id = a := by
        simpa using ha
      obtain ⟨e, he, hea⟩ := ha2
      have := findIndex_none_imp hfi e he
      rw [hea, hak2] at this
      simp at this
  · exact List.Nodup.sublist
      (List.Sublist.map QueuedItem.id (List.filter_sublist entries)) h
  · simp [ImmutableQueue.removeAll, createImmutableQueue]

/-- Concrete run of the uniqueness invariant on a two-entry queue. -/
theorem queue_ids_nodup_preserved_witness :
    (([⟨"a", 1⟩, ⟨"b", 2⟩] : List (QueuedItem Nat)).map QueuedItem.id).Nodup ∧
    ((((createImmutableQueue [⟨"a", 1⟩, ⟨"b", 2⟩]).add "a" 7).entries.map
        QueuedItem.id).Nodup ∧
      (((createImmutableQueue [(⟨"a", 1⟩ : QueuedItem Nat), ⟨"b", 2⟩]).remove
          "a").entries.map QueuedItem.id).Nodup ∧
      (((createImmutableQueue [(⟨"a", 1⟩ : QueuedItem Nat),
          ⟨"b", 2⟩]).removeAll).entries.map QueuedItem.id).Nodup) :=
  ⟨by decide, queue_ids_nodup_preserved [⟨"a", 1⟩, ⟨"b", 2⟩] "a" 7 (by decide)⟩

/-- Claim C9: the context accessor throws `Missing <NotificationProvider>`
exactly when the ambient context value is absent, and returns the Provider's
queue binding unchanged otherwise. -/
theorem useNotificationQueue_provider_check :
    (∀ (A : Type), useNotificationQueue (none : Option A)
      = Except.error "Missing <NotificationProvider>") ∧
    (∀ (A : Type) (q : A), useNotificationQueue (some q) = Except.ok q) :=
  ⟨fun _ => rfl, fun _ _ => rfl⟩

/-- Claim C10: the constructor stores the caller-supplied sequence verbatim,
so with duplicated ids `add(k, d)` replaces only the first entry with id `k`
(the later duplicate position is untouched), while `remove(k)` removes every
entry with id `k`. -/
theorem duplicate_ids_add_first_remove_all (xs : List (QueuedItem T)) (k : String)
    (d : T) (i j : Nat) (ei ej : QueuedItem T)
    (hi : xs[i]? = some ei) (hik : ei.id = k)
    (hfirst : ∀ q b, q < i → xs[q]? = some b → ¬ b.id = k)
    (hij : i < j) (hj : xs[j]? = some ej) (_hjk : ej.id = k) :
    (createImmutableQueue xs).entries = xs ∧
    ((createImmutableQueue xs).add k d).entries = xs.set i ⟨k, d⟩ ∧
    ((createImmutableQueue xs).add k d).entries[j]? = some ej ∧
    (∀ e ∈ ((createImmutableQueue xs).remove k).entries, ¬ e.id = k) := by
  have hfi : findIndex (fun n => n.id == k) xs = some i := by
    apply findIndex_eq_some_first hi (by simp [hik])
    intro q b hq hb
    simpa using beq_eq_false_iff_ne.mpr (hfirst q b hq hb)
  have hadd : ((createImmutableQueue xs).add k d).entries = xs.set i ⟨k, d⟩ := by
    simp only [ImmutableQueue.add, createImmutableQueue, hfi]
  refine ⟨rfl, hadd, ?_, ?_⟩
  · rw [hadd, List.getElem?_set_ne (Nat.ne_of_lt hij), hj]
  · intro e he
    simp only [ImmutableQueue.remove, createImmutableQueue] at he
    have := (List.mem_filter.mp he).2
    simpa using this

/-- Concrete run on a queue built with a duplicated id `a`: upsert rewrites
only position 0, and `remove` deletes both occurrences. -/
theorem duplicate_ids_add_first_remove_all_witness :
    (([⟨"a", 1⟩, ⟨"b", 2⟩, ⟨"a", 3⟩] : List (QueuedItem Nat))[0]? = some ⟨"a", 1⟩ ∧
      ([⟨"a", 1⟩, ⟨"b", 2⟩, ⟨"a", 3⟩] : List (QueuedItem Nat))[2]? = some ⟨"a", 3⟩) ∧
    ((createImmutableQueue [(⟨"a", 1⟩ : QueuedItem Nat), ⟨"b", 2⟩, ⟨"a", 3⟩]).entries
        = [⟨"a", 1⟩, ⟨"b", 2⟩, ⟨"a", 3⟩] ∧
      ((createImmutableQueue [(⟨"a", 1⟩ : QueuedItem Nat), ⟨"b", 2⟩, ⟨"a", 3⟩]).add
          "a" 9).entries = ([⟨"a", 1⟩, ⟨"b", 2⟩, ⟨"a", 3⟩] :
            List (QueuedItem Nat)).set 0 ⟨"a", 9⟩ ∧
      ((createImmutableQueue [(⟨"a", 1⟩ : QueuedItem Nat), ⟨"b", 2⟩, ⟨"a", 3⟩]).add
          "a" 9).entries[2]? = some ⟨"a", 3⟩ ∧
      ∀ e ∈ ((createImmutableQueue [(⟨"a", 1⟩ : QueuedItem Nat), ⟨"b", 2⟩,
          ⟨"a", 3⟩]).remove "a").entries, ¬ e.id = "a") :=
  ⟨⟨by decide, by decide⟩,
    duplicate_ids_add_first_remove_all [⟨"a", 1⟩, ⟨"b", 2⟩, ⟨"a", 3⟩] "a" 9 0 2
      ⟨"a", 1⟩ ⟨"a", 3⟩ (by decide) rfl
      (fun q b hq _ => absurd hq (Nat.not_lt_zero q)) (by decide) (by decide) rfl⟩

end ClaimTheorems3

section ClaimTheorems4

variable {T C Q : Type} {α β : Type}

/-- Claim C2: when the binding's registry maps id `k` to callback `c` and an
entry with id `k` is present, `remove(k)` invokes `c` exactly once and
deletes the registration, so a second `remove(k)` invokes nothing; and on any
state with no registered callback for `k`, `remove(k)` invokes no callback. -/
theorem hook_remove_callback_once (s s2 : QueueHookState T C) (k : String) (c : C)
    (hreg : lookupCb k s.registry = some c)
    (hmem : s.queue.any (fun e => e.id == k) = true)
    (hnone : lookupCb k s2.registry = none) :
    (hookRemove s k).2 = [c] ∧
    lookupCb k (hookRemove s k).1.registry = none ∧
    (hookRemove (hookRemove s k).1 k).2 = [] ∧
    (hookRemove s2 k).2 = [] := by
  have hstep : hookRemove s k
      = ({ queue := ((createImmutableQueue s.queue).remove k).entries,
           registry := s.registry.filter (fun p => !(p.1 == k)) }, [c]) := by
    simp only [hookRemove, hmem, if_true, hreg]
  have hlook : lookupCb k (hookRemove s k).1.registry = none := by
    rw [hstep]
    exact lookupCb_filter_self
  have hsecond : ∀ s3 : QueueHookState T C, lookupCb k s3.registry = none →
      (hookRemove s3 k).2 = [] := by
    intro s3 h3
    cases hany : s3.queue.any (fun e => e.id == k) with
    | false => simp [hookRemove, hany]
    | true => simp only [hookRemove, hany, if_true, h3]
  exact ⟨by rw [hstep], hlook, hsecond (hookRemove s k).1 hlook, hsecond s2 hnone⟩

/-- Concrete run of the callback protocol: one registered callback fires on the
first `remove` and never again; a state without a registration fires none. -/
theorem hook_remove_callback_once_witness :
    (lookupCb "a" ([("a", 5)] : List (String × Nat)) = some 5 ∧
      ([(⟨"a", 1⟩ : QueuedItem Nat)].any (fun e => e.id == "a")) = true ∧
      lookupCb "a" ([] : List (String × Nat)) = none) ∧
    ((hookRemove (⟨[⟨"a", 1⟩], [("a", 5)]⟩ : QueueHookState Nat Nat) "a").2 = [5] ∧
      lookupCb "a"
        (hookRemove (⟨[⟨"a", 1⟩], [("a", 5)]⟩ : QueueHookState Nat Nat) "a").1.registry
        = none ∧
      (hookRemove
        (hookRemove (⟨[⟨"a", 1⟩], [("a", 5)]⟩ : QueueHookState Nat Nat) "a").1 "a").2
        = [] ∧
      (hookRemove (⟨[⟨"b", 2⟩], []⟩ : QueueHookState Nat Nat) "a").2 = []) :=
  ⟨⟨by decide, by decide, rfl⟩,
    hook_remove_callback_once ⟨[⟨"a", 1⟩], [("a", 5)]⟩ ⟨[⟨"b", 2⟩], []⟩ "a" 5
      (by decide) (by decide) rfl⟩

/-- Claim C3: `removeAll()` sets the queue to empty, clears every
registration, and the invoked-callback list is, position by position, the
registered callback of each currently present entry that has one, taken in
ascending insertion order — so each such callback is invoked exactly once. -/
theorem hook_removeAll_all_callbacks (s : QueueHookState T C) :
    (hookRemoveAll s).1.queue = [] ∧
    (hookRemoveAll s).1.registry = [] ∧
    ∀ i : Nat,
      (hookRemoveAll s).2[i]?
        = ((s.queue.filter (fun e => (lookupCb e.id s.registry).isSome))[i]?).bind
            (fun e => lookupCb e.id s.registry) :=
  ⟨rfl, rfl, fun i =>
    filterMap_getElem? (fun (e : QueuedItem T) => lookupCb e.id s.registry) s.queue i⟩

end ClaimTheorems4
